import Mathlib

/-!
Verification of the NucModel repository: financial primitives (NPV, LCOE,
discounted payback, IRR), the hourly plant-operation simulator with calendar
maintenance windows (plant.py), and the price-forecasting utilities
(moving average, ARIMA order search, backcast harness; price_utils.py).

Conventions of the embedding: Python floats become rationals; functions
that raise return a value in the Except monad, including the
`ZeroDivisionError` of a float division whose denominator is zero (the
per-refueling fuel-cost amortization); the remaining divisions (the
`(1+rate)` powers at rate -1, a mean over a provably non-empty window) sit
behind the spec's caller-responsibility contract and use the total division
of ℚ; pandas data frames become lists of records;
pandas timestamps become a calendar record with lexicographic order,
`pd.Timedelta(days=d)` becomes `Timestamp.addDays`, and
`pd.DateOffset(months=m)` becomes `Timestamp.addMonths` (calendar months,
day-of-month clamped). The maintenance while-loop is given explicit fuel
`monthIndex end + 2`, which is proved sufficient whenever the interval is
at least one month; Python diverges when the interval is zero, which no
claim exercises.
-/

set_option maxRecDepth 40000
set_option maxHeartbeats 4000000

namespace NucModel

/-! ### Calendar timestamps (model of pandas timestamps) -/

structure Timestamp where
  year : ℕ
  month : ℕ
  day : ℕ
  hour : ℕ
deriving DecidableEq, Inhabited

/-- Lexicographic order on (year, month, day, hour), the order of pandas
timestamps restricted to whole hours. -/
def Timestamp.leb (a b : Timestamp) : Bool :=
  if a.year < b.year then true
  else if b.year < a.year then false
  else if a.month < b.month then true
  else if b.month < a.month then false
  else if a.day < b.day then true
  else if b.day < a.day then false
  else decide (a.hour ≤ b.hour)

def Timestamp.ltb (a b : Timestamp) : Bool := ! b.leb a

def isLeapYear (y : ℕ) : Bool := (y % 4 == 0 && y % 100 != 0) || (y % 400 == 0)

def daysInMonth (y m : ℕ) : ℕ :=
  if m = 2 then (if isLeapYear y then 29 else 28)
  else if m = 4 ∨ m = 6 ∨ m = 9 ∨ m = 11 then 30
  else 31

def Timestamp.nextDay (t : Timestamp) : Timestamp :=
  if t.day + 1 ≤ daysInMonth t.year t.month then ⟨t.year, t.month, t.day + 1, t.hour⟩
  else if t.month + 1 ≤ 12 then ⟨t.year, t.month + 1, 1, t.hour⟩
  else ⟨t.year + 1, 1, 1, t.hour⟩

/-- `t + pd.Timedelta(days = d)` on whole-hour timestamps. -/
def Timestamp.addDays : Timestamp → ℕ → Timestamp
  | t, 0 => t
  | t, d + 1 => t.nextDay.addDays d

/-- Number of whole months since year 0, used to bound the maintenance loop. -/
def Timestamp.monthIndex (t : Timestamp) : ℕ := t.year * 12 + (t.month - 1)

/-- `t + pd.DateOffset(months = m)`: calendar-month addition, clamping the
day of month into the target month. -/
def Timestamp.addMonths (t : Timestamp) (m : ℕ) : Timestamp :=
  let mi := t.year * 12 + (t.month - 1) + m
  let y := mi / 12
  let mo := mi % 12 + 1
  ⟨y, mo, min t.day (daysInMonth y mo), t.hour⟩

/-! ### Data rows -/

structure PriceRow where
  timestamp : Timestamp
  price : ℚ
deriving DecidableEq, Inhabited

structure SimRow where
  timestamp : Timestamp
  price : ℚ
  energy_mwh : ℚ
deriving DecidableEq, Inhabited

structure OutRow where
  timestamp : Timestamp
  price : ℚ
  energy_mwh : ℚ
  revenue : ℚ
  fuel_cost : ℚ
  profit : ℚ
deriving DecidableEq, Inhabited

structure SimResult where
  total_profit : ℚ
  df : List OutRow
deriving DecidableEq, Inhabited

/-! ### Financial primitives (plant.py) -/

/-- Net Present Value: running accumulation over the enumerated cash flows,
discounting the flow of period t (0-indexed) by (1 + rate) ^ (t + 1). -/
def calculate_npv (net_cash_flows : List ℚ) (discount_rate : ℚ) : ℚ :=
  (net_cash_flows.enum).foldl
    (fun npv tv => npv + tv.2 / (1 + discount_rate) ^ (tv.1 + 1)) 0

/-- The generator-sum `sum(f(t) for t in range(n))`. -/
def rangeSum (n : ℕ) (f : ℕ → ℚ) : ℚ := ((List.range n).map f).sum

/-- Result of `calculate_lcoe` when it does not raise: either a finite value
or the float infinity returned when the discounted energy sum is zero. -/
inductive LcoeOutcome
  | value (v : ℚ)
  | posInfinity
deriving DecidableEq

/-- Levelized Cost of Energy: checks the three schedules have one length,
discounts investment, operating cost and energy, subtracts the discounted
residual value, and divides; returns the infinity marker when the discounted
energy sum is zero. -/
def calculate_lcoe (investment_costs operation_costs energy_production : List ℚ)
    (discount_rate : ℚ) (residual_value : ℚ) : Except String LcoeOutcome :=
  if ¬ (investment_costs.length = operation_costs.length
        ∧ operation_costs.length = energy_production.length) then
    .error "Input lists for costs and production must have the same length."
  else
    let n := investment_costs.length
    let discounted_investments :=
      rangeSum n (fun t => investment_costs.getD t 0 / (1 + discount_rate) ^ (t + 1))
    let discounted_operations :=
      rangeSum n (fun t => operation_costs.getD t 0 / (1 + discount_rate) ^ (t + 1))
    let discounted_residual_value := residual_value / (1 + discount_rate) ^ n
    let total_discounted_costs :=
      discounted_investments + discounted_operations - discounted_residual_value
    let total_discounted_energy :=
      rangeSum n (fun t => energy_production.getD t 0 / (1 + discount_rate) ^ (t + 1))
    if total_discounted_energy = 0 then .ok .posInfinity
    else .ok (.value (total_discounted_costs / total_discounted_energy))

/-- The loop body of `calculate_discounted_payback_period`: `t` is the current
period index and `cumulative` the discounted sum accumulated so far. -/
def paybackGo (discount_rate : ℚ) : ℕ → ℚ → List ℚ → Option ℕ
  | _, _, [] => none
  | t, cumulative, ncf :: rest =>
      let cumulative2 := cumulative + ncf / (1 + discount_rate) ^ t
      if 0 ≤ cumulative2 then some t else paybackGo discount_rate (t + 1) cumulative2 rest

/-- Discounted payback period: first period index at which the cumulative
discounted cash flow is nonnegative, `none` if never. -/
def calculate_discounted_payback_period (net_cash_flows : List ℚ) (discount_rate : ℚ) :
    Option ℕ :=
  paybackGo discount_rate 0 0 net_cash_flows

/-- Search grid of candidate rates strictly greater than -1, in steps of one
percent, used by the model of the external root solver. -/
def irrCandidateRates : List ℚ :=
  (List.range 400).map (fun (k : ℕ) => (k : ℚ) / 100 - 99 / 100)

/-- Modelled from the spec: `calculate_irr` delegates to `npf.irr` from the
external numpy-financial package, whose source is not part of this
repository. The spec describes it as finding a rate r with
NPV(cashflows, r) = 0 by standard polynomial-root solving, returning an
absent value rather than raising when no real solution exists in range. We
model the root search as scanning a fixed grid of candidate rates greater
than -1 and returning the first exact root, and the absent value otherwise. -/
def npf_irr (net_cash_flows : List ℚ) : Option ℚ :=
  irrCandidateRates.find? (fun r => decide (calculate_npv net_cash_flows r = 0))

/-- `calculate_irr` forwards the cash flows to the external solver. -/
def calculate_irr (net_cash_flows : List ℚ) : Option ℚ := npf_irr net_cash_flows

/-! ### Lemmas for the financial primitives -/

theorem npv_foldl_enumFrom (l : List ℚ) (p : ℚ) :
    ∀ (k : ℕ) (a : ℚ),
      (l.enumFrom k).foldl (fun acc tv => acc + tv.2 / (1 + p) ^ (tv.1 + 1)) a
        = a + ∑ t in Finset.range l.length, l.getD t 0 / (1 + p) ^ (k + t + 1) := by
  induction l with
  | nil => intro k a; simp
  | cons x xs ih =>
      intro k a
      rw [List.enumFrom_cons, List.foldl_cons, ih (k + 1), List.length_cons,
        Finset.sum_range_succ']
      have hshift : ∀ t : ℕ,
          (x :: xs).getD (t + 1) 0 / (1 + p) ^ (k + (t + 1) + 1)
            = xs.getD t 0 / (1 + p) ^ (k + 1 + t + 1) := by
        intro t
        rw [List.getD_cons_succ, show k + (t + 1) + 1 = k + 1 + t + 1 by omega]
      rw [Finset.sum_congr rfl (fun t _ => hshift t)]
      simp [List.getD_cons_zero]
      ring

theorem calculate_npv_eq_sum (cf : List ℚ) (rate : ℚ) :
    calculate_npv cf rate
      = ∑ t in Finset.range cf.length, cf.getD t 0 / (1 + rate) ^ (t + 1) := by
  have h := npv_foldl_enumFrom cf rate 0 0
  simpa [calculate_npv, List.enum] using h

theorem rangeSum_eq_sum (n : ℕ) (f : ℕ → ℚ) :
    rangeSum n f = ∑ t in Finset.range n, f t := by
  induction n with
  | zero => simp [rangeSum]
  | succ m ih =>
      rw [rangeSum, List.range_succ, List.map_append, List.sum_append,
        Finset.sum_range_succ, ← ih]
      simp [rangeSum]

/-! ### Claim C3 -/

/-- C3: for every cash-flow list and discount rate other than -1,
`calculate_npv` equals the sum of cf_t / (1+rate)^(t+1) over the periods,
and on [-100, 60, 60] at rate 0.1 it equals -100/1.1 + 60/1.1^2 + 60/1.1^3. -/
theorem claim_C3_npv :
    (∀ (cf : List ℚ) (rate : ℚ), rate ≠ -1 →
        calculate_npv cf rate
          = ∑ t in Finset.range cf.length, cf.getD t 0 / (1 + rate) ^ (t + 1))
    ∧ calculate_npv [-100, 60, 60] (1 / 10)
        = -100 / (11 / 10) + 60 / (11 / 10) ^ 2 + 60 / (11 / 10) ^ 3 := by
  constructor
  · intro cf rate _
    exact calculate_npv_eq_sum cf rate
  · rw [calculate_npv_eq_sum]
    simp [Finset.sum_range_succ]
    norm_num

theorem claim_C3_npv_witness :
    ((1 : ℚ) / 10 ≠ -1)
    ∧ calculate_npv [-100, 60, 60] (1 / 10)
        = ∑ t in Finset.range ([-100, 60, 60] : List ℚ).length,
            ([-100, 60, 60] : List ℚ).getD t 0 / (1 + 1 / 10) ^ (t + 1) :=
  ⟨by norm_num, claim_C3_npv.1 [-100, 60, 60] (1 / 10) (by norm_num)⟩

/-! ### Claim C4 -/

theorem lcoe_of_lengths (I K A : List ℚ) (r v : ℚ)
    (h1 : I.length = K.length) (h2 : K.length = A.length) :
    calculate_lcoe I K A r v
      = .ok (if (∑ t in Finset.range I.length, A.getD t 0 / (1 + r) ^ (t + 1)) = 0
             then LcoeOutcome.posInfinity
             else LcoeOutcome.value
               (((∑ t in Finset.range I.length, I.getD t 0 / (1 + r) ^ (t + 1))
                  + (∑ t in Finset.range I.length, K.getD t 0 / (1 + r) ^ (t + 1))
                  - v / (1 + r) ^ I.length)
                 / (∑ t in Finset.range I.length, A.getD t 0 / (1 + r) ^ (t + 1)))) := by
  rw [calculate_lcoe, if_neg (by simp [h1, h2])]
  simp only [rangeSum_eq_sum]
  rw [apply_ite Except.ok]

theorem lcoe_error_iff (I K A : List ℚ) (r v : ℚ) :
    (∃ msg, calculate_lcoe I K A r v = .error msg)
      ↔ ¬ (I.length = K.length ∧ K.length = A.length) := by
  by_cases h : I.length = K.length ∧ K.length = A.length
  · constructor
    · rintro ⟨msg, hmsg⟩
      rw [lcoe_of_lengths I K A r v h.1 h.2] at hmsg
      exact Except.noConfusion hmsg
    · intro hcon; exact absurd h hcon
  · constructor
    · intro _; exact h
    · intro _
      exact ⟨_, by rw [calculate_lcoe, if_pos (by simpa using h)]⟩

/-- C4: `calculate_lcoe` raises exactly on unequal schedule lengths; on equal
lengths it returns the discounted-cost over discounted-energy quotient, with
the infinity marker when the discounted energy sum is zero; and the concrete
test instance evaluates as the spec states. -/
theorem claim_C4_lcoe :
    (∀ (I K A : List ℚ) (r v : ℚ),
        ((∃ msg, calculate_lcoe I K A r v = .error msg)
            ↔ ¬ (I.length = K.length ∧ K.length = A.length))
        ∧ (I.length = K.length → K.length = A.length →
            calculate_lcoe I K A r v
              = .ok (if (∑ t in Finset.range I.length, A.getD t 0 / (1 + r) ^ (t + 1)) = 0
                     then LcoeOutcome.posInfinity
                     else LcoeOutcome.value
                       (((∑ t in Finset.range I.length, I.getD t 0 / (1 + r) ^ (t + 1))
                          + (∑ t in Finset.range I.length, K.getD t 0 / (1 + r) ^ (t + 1))
                          - v / (1 + r) ^ I.length)
                         / (∑ t in Finset.range I.length, A.getD t 0 / (1 + r) ^ (t + 1))))))
    ∧ calculate_lcoe [50, 0] [0, 10] [0, 100] (1 / 10) 0
        = .ok (.value ((50 / (11 / 10) + 10 / (11 / 10) ^ 2) / (100 / (11 / 10) ^ 2))) := by
  constructor
  · intro I K A r v
    exact ⟨lcoe_error_iff I K A r v, lcoe_of_lengths I K A r v⟩
  · have h := lcoe_of_lengths [50, 0] [0, 10] [0, 100] (1 / 10) 0 rfl rfl
    rw [h]
    have hA : (∑ t in Finset.range ([50, 0] : List ℚ).length,
        ([0, 100] : List ℚ).getD t 0 / (1 + 1 / 10) ^ (t + 1)) = 100 / (11 / 10) ^ 2 := by
      simp [Finset.sum_range_succ]
      norm_num
    rw [hA, if_neg (by norm_num)]
    simp only [Except.ok.injEq, LcoeOutcome.value.injEq]
    simp [Finset.sum_range_succ]
    norm_num

theorem claim_C4_lcoe_witness :
    calculate_lcoe [50, 0] [0, 10] [0, 100] (1 / 10) 0
      = .ok (if (∑ t in Finset.range ([50, 0] : List ℚ).length,
                  ([0, 100] : List ℚ).getD t 0 / (1 + 1 / 10) ^ (t + 1)) = 0
             then LcoeOutcome.posInfinity
             else LcoeOutcome.value
               (((∑ t in Finset.range ([50, 0] : List ℚ).length,
                    ([50, 0] : List ℚ).getD t 0 / (1 + 1 / 10) ^ (t + 1))
                  + (∑ t in Finset.range ([50, 0] : List ℚ).length,
                      ([0, 10] : List ℚ).getD t 0 / (1 + 1 / 10) ^ (t + 1))
                  - 0 / (1 + 1 / 10) ^ ([50, 0] : List ℚ).length)
                 / (∑ t in Finset.range ([50, 0] : List ℚ).length,
                     ([0, 100] : List ℚ).getD t 0 / (1 + 1 / 10) ^ (t + 1)))) :=
  ((claim_C4_lcoe.1 [50, 0] [0, 10] [0, 100] (1 / 10) 0).2 : _) rfl rfl

/-! ### Claim C5 -/

theorem discSum_cons (rate c : ℚ) (cs : List ℚ) (t m : ℕ) :
    ∑ i in Finset.range (m + 1), (c :: cs).getD i 0 / (1 + rate) ^ (t + i)
      = c / (1 + rate) ^ t + ∑ i in Finset.range m, cs.getD i 0 / (1 + rate) ^ (t + 1 + i) := by
  rw [Finset.sum_range_succ', add_comm]
  congr 1
  apply Finset.sum_congr rfl
  intro i _
  rw [List.getD_cons_succ, show t + (i + 1) = t + 1 + i by omega]

theorem paybackGo_eq_some (rate : ℚ) :
    ∀ (l : List ℚ) (t : ℕ) (cum : ℚ) (u : ℕ),
      paybackGo rate t cum l = some u
        ↔ t ≤ u ∧ u - t < l.length
            ∧ 0 ≤ cum + ∑ i in Finset.range (u + 1 - t), l.getD i 0 / (1 + rate) ^ (t + i)
            ∧ ∀ v, t ≤ v → v < u →
                cum + ∑ i in Finset.range (v + 1 - t), l.getD i 0 / (1 + rate) ^ (t + i) < 0 := by
  intro l
  induction l with
  | nil =>
      intro t cum u
      simp [paybackGo]
  | cons c cs ih =>
      intro t cum u
      have Scons : ∀ v, t ≤ v →
          cum + ∑ i in Finset.range (v + 1 - t), (c :: cs).getD i 0 / (1 + rate) ^ (t + i)
            = (cum + c / (1 + rate) ^ t)
              + ∑ i in Finset.range (v - t), cs.getD i 0 / (1 + rate) ^ (t + 1 + i) := by
        intro v hv
        rw [show v + 1 - t = (v - t) + 1 by omega, discSum_cons]
        ring
      show (if 0 ≤ cum + c / (1 + rate) ^ t then some t
            else paybackGo rate (t + 1) (cum + c / (1 + rate) ^ t) cs) = some u ↔ _
      by_cases h0 : (0 : ℚ) ≤ cum + c / (1 + rate) ^ t
      · rw [if_pos h0]
        constructor
        · intro h
          have ht : t = u := by injection h
          subst ht
          refine ⟨le_refl t, by simp, ?_, ?_⟩
          · rw [Scons t le_rfl]
            simpa using h0
          · intro v hv1 hv2; omega
        · rintro ⟨h1, _, _, h4⟩
          rcases Nat.eq_or_lt_of_le h1 with rfl | hlt
          · rfl
          · exfalso
            have hv := h4 t le_rfl hlt
            rw [Scons t le_rfl] at hv
            simp at hv
            exact absurd h0 (not_le.mpr hv)
      · rw [if_neg h0]
        rw [ih (t + 1) (cum + c / (1 + rate) ^ t) u]
        constructor
        · rintro ⟨h1, h2, h3, h4⟩
          refine ⟨by omega, by simp; omega, ?_, ?_⟩
          · rw [Scons u (by omega), show u - t = u + 1 - (t + 1) by omega]
            exact h3
          · intro v hv1 hv2
            rcases Nat.eq_or_lt_of_le hv1 with heq | hv
            · subst heq
              rw [Scons t le_rfl]
              simpa using not_le.mp h0
            · rw [Scons v (by omega), show v - t = v + 1 - (t + 1) by omega]
              exact h4 v (by omega) hv2
        · rintro ⟨h1, h2, h3, h4⟩
          have ht1 : t + 1 ≤ u := by
            rcases Nat.eq_or_lt_of_le h1 with heq | h
            · exfalso
              subst heq
              rw [Scons t le_rfl] at h3
              simp at h3
              exact absurd h3 h0
            · omega
          refine ⟨ht1, by simp at h2; omega, ?_, ?_⟩
          · rw [Scons u (by omega), show u - t = u + 1 - (t + 1) by omega] at h3
            exact h3
          · intro v hv1 hv2
            have hh := h4 v (by omega) hv2
            rw [Scons v (by omega), show v - t = v + 1 - (t + 1) by omega] at hh
            exact hh

theorem payback_some_iff (cf : List ℚ) (rate : ℚ) (u : ℕ) :
    calculate_discounted_payback_period cf rate = some u
      ↔ u < cf.length
        ∧ 0 ≤ ∑ i in Finset.range (u + 1), cf.getD i 0 / (1 + rate) ^ i
        ∧ ∀ s < u, ∑ i in Finset.range (s + 1), cf.getD i 0 / (1 + rate) ^ i < 0 := by
  rw [calculate_discounted_payback_period, paybackGo_eq_some]
  constructor
  · rintro ⟨_, h2, h3, h4⟩
    refine ⟨by omega, by simpa using h3, ?_⟩
    intro s hs
    simpa using h4 s (Nat.zero_le s) hs
  · rintro ⟨h1, h2, h3⟩
    refine ⟨Nat.zero_le u, by omega, by simpa using h2, ?_⟩
    intro v _ hv
    simpa using h3 v hv

theorem payback_none_iff (cf : List ℚ) (rate : ℚ) :
    calculate_discounted_payback_period cf rate = none
      ↔ ∀ t < cf.length, ∑ i in Finset.range (t + 1), cf.getD i 0 / (1 + rate) ^ i < 0 := by
  constructor
  · intro hn t ht
    by_contra hge
    push_neg at hge
    have hex : ∃ w, 0 ≤ ∑ i in Finset.range (w + 1), cf.getD i 0 / (1 + rate) ^ i := ⟨t, hge⟩
    have hu : 0 ≤ ∑ i in Finset.range (Nat.find hex + 1), cf.getD i 0 / (1 + rate) ^ i :=
      Nat.find_spec hex
    have humin : ∀ s < Nat.find hex,
        ∑ i in Finset.range (s + 1), cf.getD i 0 / (1 + rate) ^ i < 0 :=
      fun s hs => not_le.mp (Nat.find_min hex hs)
    have hulen : Nat.find hex < cf.length := lt_of_le_of_lt (Nat.find_min' hex hge) ht
    have := (payback_some_iff cf rate (Nat.find hex)).mpr ⟨hulen, hu, humin⟩
    rw [hn] at this
    exact Option.noConfusion this
  · intro hall
    cases hres : calculate_discounted_payback_period cf rate with
    | none => rfl
    | some u =>
        exfalso
        have h := (payback_some_iff cf rate u).mp hres
        exact absurd h.2.1 (not_le.mpr (hall u h.1))

/-- C5: `calculate_discounted_payback_period` returns the smallest 0-indexed
period at which the cumulative discounted cash flow is nonnegative, `none`
when no period reaches it, and period 3 on [-100, 40, 40, 40] at rate 0.05. -/
theorem claim_C5_payback :
    (∀ (cf : List ℚ) (rate : ℚ) (u : ℕ),
        calculate_discounted_payback_period cf rate = some u
          ↔ u < cf.length
            ∧ 0 ≤ ∑ i in Finset.range (u + 1), cf.getD i 0 / (1 + rate) ^ i
            ∧ ∀ s < u, ∑ i in Finset.range (s + 1), cf.getD i 0 / (1 + rate) ^ i < 0)
    ∧ (∀ (cf : List ℚ) (rate : ℚ),
        calculate_discounted_payback_period cf rate = none
          ↔ ∀ t < cf.length, ∑ i in Finset.range (t + 1), cf.getD i 0 / (1 + rate) ^ i < 0)
    ∧ calculate_discounted_payback_period [-100, 40, 40, 40] (1 / 20) = some 3 := by
  refine ⟨payback_some_iff, payback_none_iff, ?_⟩
  simp only [calculate_discounted_payback_period, paybackGo]
  norm_num

/-! ### Claim C6 -/

theorem npv_single (x rate : ℚ) : calculate_npv [x] rate = x / (1 + rate) := by
  simp [calculate_npv, List.enum]

theorem irrCandidateRates_ne_neg_one : ∀ r ∈ irrCandidateRates, r ≠ -1 := by
  intro r hr
  rw [irrCandidateRates] at hr
  rcases List.mem_map.mp hr with ⟨k, _, rfl⟩
  intro hEq
  have hk : (k : ℚ) = -1 := by
    field_simp at hEq
    linarith
  have : (0 : ℚ) ≤ (k : ℚ) := Nat.cast_nonneg k
  linarith

/-- C6: when the cash flows admit no internal rate of return, `calculate_irr`
returns the absent value rather than raising; and whenever it does return a
rate, that rate is a zero of the NPV. -/
theorem claim_C6_irr :
    (∀ cf : List ℚ, (∀ r : ℚ, r ≠ -1 → calculate_npv cf r ≠ 0) → calculate_irr cf = none)
    ∧ (∀ (cf : List ℚ) (r : ℚ), calculate_irr cf = some r → calculate_npv cf r = 0) := by
  constructor
  · intro cf h
    rw [calculate_irr, npf_irr, List.find?_eq_none]
    intro r hr
    simpa using h r (irrCandidateRates_ne_neg_one r hr)
  · intro cf r h
    have := List.find?_some (p := fun r => decide (calculate_npv cf r = 0)) h
    simpa using this

theorem claim_C6_irr_witness : calculate_irr [1] = none := by
  apply claim_C6_irr.1
  intro r hr
  rw [npv_single]
  have h1 : (1 : ℚ) + r ≠ 0 := fun h => hr (by linarith)
  exact one_div_ne_zero h1

/-! ### Forecasting utilities (price_utils.py) -/

def listMean (l : List ℚ) : ℚ := l.sum / l.length

/-- Moving-average forecast: mean of the last `window` prices
(`prices["price"].tail(window).mean()`). -/
def forecast_next_hour (prices : List PriceRow) (window : ℕ) : Except String ℚ :=
  if prices.isEmpty then .error "No price data available for forecasting"
  else .ok (listMean ((prices.map PriceRow.price).drop (prices.length - window)))

structure BackRow where
  timestamp : Timestamp
  actual : ℚ
  predicted : ℚ
  error : ℚ
deriving DecidableEq, Inhabited

/-- Backcast harness: for each index i from `window` to the end, forecast from
the preceding `window` rows and compare with the actual price at i. A raise
from the forecast function propagates. -/
def backcast (prices : List PriceRow) (forecast_func : List PriceRow → Except String ℚ)
    (window : ℕ) : Except String (List BackRow) :=
  if prices.length ≤ window then .error "Not enough data for backcasting"
  else
    (List.range' window (prices.length - window)).mapM (fun i => do
      let history := (prices.drop (i - window)).take window
      let predicted ← forecast_func history
      pure { timestamp := (prices.getD i default).timestamp,
             actual := (prices.getD i default).price,
             predicted := predicted,
             error := (prices.getD i default).price - predicted })

abbrev ArimaOrder := ℕ × ℕ × ℕ

/-- The ARIMA grid-search candidates in iteration order:
p over range(0,3), d over range(0,2), q over range(0,3). -/
def arimaGrid : List ArimaOrder :=
  (List.range 3).flatMap (fun p =>
    (List.range 2).flatMap (fun d =>
      (List.range 3).map (fun q => (p, d, q))))

/-- One step of the grid-search loop body of `forecast_arima`: skip (0,0,0),
skip fits that raise (`fit o = none`), and keep the strictly lower AIC.
`none` as the best AIC stands for the initial `float("inf")`. -/
def arimaStep (fit : ArimaOrder → Option ℚ) (best : ArimaOrder × Option ℚ)
    (o : ArimaOrder) : ArimaOrder × Option ℚ :=
  if o = (0, 0, 0) then best
  else
    match fit o with
    | none => best
    | some aic =>
        match best.2 with
        | none => (o, some aic)
        | some b => if aic < b then (o, some aic) else best

/-- The order chosen by the grid search of `forecast_arima` when no order is
given, with the statsmodels fit abstracted as an oracle `fit` returning the
AIC of a successful fit and `none` for a fit that raises. -/
def bestArimaOrder (fit : ArimaOrder → Option ℚ) : ArimaOrder :=
  (arimaGrid.foldl (arimaStep fit) ((1, 0, 0), none)).1

/-- `forecast_arima`: raises on an empty series, otherwise fits the given
order (or the grid-searched one) and forecasts one step; the final fit
(`forecastWith`) may itself raise. -/
def forecast_arima (fit : ArimaOrder → Option ℚ)
    (forecastWith : ArimaOrder → Except String ℚ)
    (prices : List PriceRow) (order : Option ArimaOrder) : Except String ℚ :=
  if prices.isEmpty then .error "No price data available for forecasting"
  else forecastWith (order.getD (bestArimaOrder fit))

/-! ### Claim C10 -/

/-- C10: for every non-empty price series, `forecast_next_hour` returns the
mean of the last `min window n` prices; in particular with fewer rows than
the window it returns the mean of all available prices without raising. -/
theorem claim_C10_forecast_next_hour :
    ∀ (prices : List PriceRow) (window : ℕ), prices ≠ [] →
      (forecast_next_hour prices window
          = .ok (((prices.map PriceRow.price).drop (prices.length - window)).sum
                  / ((min window prices.length : ℕ) : ℚ)))
        ∧ (prices.length < window →
            forecast_next_hour prices window
              = .ok ((prices.map PriceRow.price).sum / (prices.length : ℚ))) := by
  intro prices window hne
  have hguard : ¬ (prices.isEmpty = true) := by
    simpa using hne
  have hlen : ((prices.map PriceRow.price).drop (prices.length - window)).length
      = min window prices.length := by
    rw [List.length_drop, List.length_map]
    omega
  constructor
  · rw [forecast_next_hour, if_neg hguard, listMean, hlen]
  · intro hw
    rw [forecast_next_hour, if_neg hguard, listMean]
    have h0 : prices.length - window = 0 := by omega
    rw [h0, List.drop_zero, List.length_map]

theorem claim_C10_forecast_next_hour_witness :
    forecast_next_hour [{ timestamp := ⟨2024, 1, 1, 0⟩, price := 5 }] 24 = .ok 5 := by
  have h := (claim_C10_forecast_next_hour
    [{ timestamp := ⟨2024, 1, 1, 0⟩, price := 5 }] 24 (by simp)).1
  rw [h]
  norm_num [PriceRow.price]

/-! ### Claim C8 -/

theorem mapM_eq_ok_map {α β : Type} (F : α → β) (f : α → Except String β)
    (hf : ∀ a, f a = .ok (F a)) : ∀ l : List α, l.mapM f = .ok (l.map F) := by
  intro l
  induction l with
  | nil => rfl
  | cons x xs ih =>
      rw [List.mapM_cons, hf x, ih]
      rfl

/-- The row produced by `backcast` at absolute index i. -/
def backRowAt (prices : List PriceRow) (g : List PriceRow → ℚ) (window i : ℕ) : BackRow :=
  { timestamp := (prices.getD i default).timestamp
    actual := (prices.getD i default).price
    predicted := g ((prices.drop (i - window)).take window)
    error := (prices.getD i default).price - g ((prices.drop (i - window)).take window) }

theorem backcast_ok (prices : List PriceRow) (g : List PriceRow → ℚ) (window : ℕ)
    (h : window < prices.length) :
    backcast prices (fun hist => .ok (g hist)) window
      = .ok ((List.range (prices.length - window)).map (fun j =>
          { timestamp := (prices.getD (window + j) default).timestamp
            actual := (prices.getD (window + j) default).price
            predicted := g ((prices.drop j).take window)
            error := (prices.getD (window + j) default).price
                      - g ((prices.drop j).take window) })) := by
  rw [backcast, if_neg (by omega)]
  have h1 : (List.range' window (prices.length - window)).mapM
        (fun i => (Except.ok (backRowAt prices g window i) : Except String BackRow))
      = .ok ((List.range' window (prices.length - window)).map (backRowAt prices g window)) :=
    mapM_eq_ok_map (backRowAt prices g window) _ (fun i => rfl) _
  have h2 : (List.range' window (prices.length - window)).map (backRowAt prices g window)
      = (List.range (prices.length - window)).map (fun j =>
          ({ timestamp := (prices.getD (window + j) default).timestamp
             actual := (prices.getD (window + j) default).price
             predicted := g ((prices.drop j).take window)
             error := (prices.getD (window + j) default).price
                       - g ((prices.drop j).take window) } : BackRow)) := by
    rw [List.range'_eq_map_range, List.map_map]
    congr 1
    funext j
    simp only [Function.comp, backRowAt]
    rw [show window + j - window = j by omega]
  exact h1.trans (congrArg Except.ok h2)

theorem backcast_error (prices : List PriceRow) (f : List PriceRow → Except String ℚ)
    (window : ℕ) (h : prices.length ≤ window) :
    ∃ msg, backcast prices f window = .error msg := by
  exact ⟨_, by rw [backcast, if_pos h]⟩

/-- Extracts the produced rows of a backcast, an empty list on a raise. -/
def backRows (e : Except String (List BackRow)) : List BackRow :=
  match e with
  | .ok rows => rows
  | .error _ => []

/-- The constant 30-hour test series of the repository's backcast test. -/
def constSeries30 : List PriceRow :=
  (List.range 30).map (fun (i : ℕ) => { timestamp := ⟨2024, 1, 1 + i / 24, i % 24⟩, price := 5 })

/-- C8: `backcast` raises exactly when the series has at most `window` rows;
otherwise it emits one row per index from `window` on, with actual the price
at that index, predicted the forecast over the preceding `window` rows, and
error their difference; over the constant 30-hour series with window 24 and
the moving-average forecaster it yields 6 rows with error 0. -/
theorem claim_C8_backcast :
    (∀ (prices : List PriceRow) (f : List PriceRow → Except String ℚ) (window : ℕ),
        prices.length ≤ window → ∃ msg, backcast prices f window = .error msg)
    ∧ (∀ (prices : List PriceRow) (g : List PriceRow → ℚ) (window : ℕ),
        window < prices.length →
          backcast prices (fun hist => .ok (g hist)) window
            = .ok ((List.range (prices.length - window)).map (fun j =>
                { timestamp := (prices.getD (window + j) default).timestamp
                  actual := (prices.getD (window + j) default).price
                  predicted := g ((prices.drop j).take window)
                  error := (prices.getD (window + j) default).price
                            - g ((prices.drop j).take window) })))
    ∧ (backRows
        (backcast constSeries30 (fun hist => forecast_next_hour hist 24) 24)).length = 6
    ∧ (backRows
        (backcast constSeries30 (fun hist => forecast_next_hour hist 24) 24)).all
          (fun r => r.error == 0 && r.predicted == r.actual && r.actual == 5) = true := by
  refine ⟨backcast_error, backcast_ok, ?_, ?_⟩
  · with_unfolding_all decide
  · with_unfolding_all decide

theorem claim_C8_backcast_witness :
    (∃ msg, backcast (constSeries30.take 10) (fun hist => forecast_next_hour hist 24) 24
        = .error msg)
    ∧ backcast (constSeries30.take 3) (fun hist => .ok ((fun _ => (7 : ℚ)) hist)) 2
        = .ok ((List.range ((constSeries30.take 3).length - 2)).map (fun j =>
            { timestamp := ((constSeries30.take 3).getD (2 + j) default).timestamp
              actual := ((constSeries30.take 3).getD (2 + j) default).price
              predicted := (fun _ => (7 : ℚ)) (((constSeries30.take 3).drop j).take 2)
              error := ((constSeries30.take 3).getD (2 + j) default).price
                        - (fun _ => (7 : ℚ)) (((constSeries30.take 3).drop j).take 2) })) :=
  ⟨claim_C8_backcast.1 (constSeries30.take 10) _ 24 (by with_unfolding_all decide),
   claim_C8_backcast.2.1 (constSeries30.take 3) (fun _ => (7 : ℚ)) 2
     (by with_unfolding_all decide)⟩

/-! ### Claim C9 -/

theorem arimaStep_skip (fit : ArimaOrder → Option ℚ) (s : ArimaOrder × Option ℚ)
    (x : ArimaOrder) (hx : x = (0, 0, 0) ∨ fit x = none) :
    arimaStep fit s x = s := by
  rcases hx with hx | hx
  · rw [arimaStep, if_pos hx]
  · by_cases h0 : x = (0, 0, 0)
    · rw [arimaStep, if_pos h0]
    · rw [arimaStep, if_neg h0, hx]

theorem arimaStep_success_none (fit : ArimaOrder → Option ℚ) (bo x : ArimaOrder) (a : ℚ)
    (hx : x ≠ (0, 0, 0)) (hf : fit x = some a) :
    arimaStep fit (bo, none) x = (x, some a) := by
  rw [arimaStep, if_neg hx, hf]

theorem arimaStep_success_lt (fit : ArimaOrder → Option ℚ) (bo x : ArimaOrder) (a b : ℚ)
    (hx : x ≠ (0, 0, 0)) (hf : fit x = some a) (hab : a < b) :
    arimaStep fit (bo, some b) x = (x, some a) := by
  rw [arimaStep, if_neg hx, hf]
  show (if a < b then (x, some a) else (bo, some b)) = (x, some a)
  rw [if_pos hab]

theorem arimaStep_success_ge (fit : ArimaOrder → Option ℚ) (bo x : ArimaOrder) (a b : ℚ)
    (hx : x ≠ (0, 0, 0)) (hf : fit x = some a) (hab : ¬ a < b) :
    arimaStep fit (bo, some b) x = (bo, some b) := by
  rw [arimaStep, if_neg hx, hf]
  show (if a < b then (x, some a) else (bo, some b)) = (bo, some b)
  rw [if_neg hab]

theorem arima_foldl_fix (fit : ArimaOrder → Option ℚ) :
    ∀ (l : List ArimaOrder) (s : ArimaOrder × Option ℚ),
      (∀ o ∈ l, o ≠ (0, 0, 0) → fit o = none) →
        l.foldl (arimaStep fit) s = s := by
  intro l
  induction l with
  | nil => intro s _; rfl
  | cons x xs ih =>
      intro s h
      rw [List.foldl_cons, arimaStep_skip]
      · exact ih s (fun o ho => h o (List.mem_cons_of_mem x ho))
      · by_cases hx : x = (0, 0, 0)
        · exact Or.inl hx
        · exact Or.inr (h x (List.mem_cons_self x xs) hx)

theorem arima_foldl_sound (fit : ArimaOrder → Option ℚ) :
    ∀ (l : List ArimaOrder) (bo : ArimaOrder) (ba : Option ℚ),
      l.foldl (arimaStep fit) (bo, ba) = (bo, ba)
      ∨ ∃ o a, l.foldl (arimaStep fit) (bo, ba) = (o, some a)
          ∧ o ∈ l ∧ o ≠ (0, 0, 0) ∧ fit o = some a := by
  intro l
  induction l with
  | nil => intro bo ba; exact Or.inl rfl
  | cons x xs ih =>
      intro bo ba
      have hstep : arimaStep fit (bo, ba) x = (bo, ba)
          ∨ ∃ a, arimaStep fit (bo, ba) x = (x, some a) ∧ x ≠ (0, 0, 0) ∧ fit x = some a := by
        by_cases hx : x = (0, 0, 0)
        · exact Or.inl (arimaStep_skip fit _ x (Or.inl hx))
        · cases hf : fit x with
          | none => exact Or.inl (arimaStep_skip fit _ x (Or.inr hf))
          | some a =>
              cases ba with
              | none => exact Or.inr ⟨a, arimaStep_success_none fit bo x a hx hf, hx, rfl⟩
              | some b =>
                  by_cases hab : a < b
                  · exact Or.inr ⟨a, arimaStep_success_lt fit bo x a b hx hf hab, hx, rfl⟩
                  · exact Or.inl (arimaStep_success_ge fit bo x a b hx hf hab)
      rw [List.foldl_cons]
      rcases hstep with h1 | ⟨a, h2, hx, hf⟩
      · rw [h1]
        rcases ih bo ba with h | ⟨o, a, h, ho, hno, hfo⟩
        · exact Or.inl h
        · exact Or.inr ⟨o, a, h, List.mem_cons_of_mem x ho, hno, hfo⟩
      · rw [h2]
        rcases ih x (some a) with h | ⟨o, a2, h, ho, hno, hfo⟩
        · exact Or.inr ⟨x, a, h, List.mem_cons_self x xs, hx, hf⟩
        · exact Or.inr ⟨o, a2, h, List.mem_cons_of_mem x ho, hno, hfo⟩

theorem arimaStep_snd_le (fit : ArimaOrder → Option ℚ) (s : ArimaOrder × Option ℚ)
    (x : ArimaOrder) (b : ℚ) (hb : s.2 = some b) :
    ∃ c, (arimaStep fit s x).2 = some c ∧ c ≤ b := by
  obtain ⟨bo, ba⟩ := s
  simp only at hb
  subst hb
  by_cases hx : x = (0, 0, 0)
  · exact ⟨b, by rw [arimaStep_skip fit _ x (Or.inl hx)], le_refl b⟩
  · cases hf : fit x with
    | none => exact ⟨b, by rw [arimaStep_skip fit _ x (Or.inr hf)], le_refl b⟩
    | some a =>
        by_cases hab : a < b
        · exact ⟨a, by rw [arimaStep_success_lt fit bo x a b hx hf hab], le_of_lt hab⟩
        · exact ⟨b, by rw [arimaStep_success_ge fit bo x a b hx hf hab], le_refl b⟩

theorem arimaStep_snd_success (fit : ArimaOrder → Option ℚ) (s : ArimaOrder × Option ℚ)
    (x : ArimaOrder) (a : ℚ) (hx : x ≠ (0, 0, 0)) (hf : fit x = some a) :
    ∃ c, (arimaStep fit s x).2 = some c ∧ c ≤ a := by
  obtain ⟨bo, ba⟩ := s
  cases ba with
  | none => exact ⟨a, by rw [arimaStep_success_none fit bo x a hx hf], le_refl a⟩
  | some b =>
      by_cases hab : a < b
      · exact ⟨a, by rw [arimaStep_success_lt fit bo x a b hx hf hab], le_refl a⟩
      · exact ⟨b, by rw [arimaStep_success_ge fit bo x a b hx hf hab], not_lt.mp hab⟩

theorem arima_foldl_snd_le (fit : ArimaOrder → Option ℚ) :
    ∀ (l : List ArimaOrder) (s : ArimaOrder × Option ℚ) (b : ℚ), s.2 = some b →
      ∃ c, (l.foldl (arimaStep fit) s).2 = some c ∧ c ≤ b := by
  intro l
  induction l with
  | nil => intro s b hb; exact ⟨b, hb, le_refl b⟩
  | cons x xs ih =>
      intro s b hb
      obtain ⟨c, hc, hcb⟩ := arimaStep_snd_le fit s x b hb
      obtain ⟨d, hd, hdc⟩ := ih (arimaStep fit s x) c hc
      exact ⟨d, by rw [List.foldl_cons]; exact hd, le_trans hdc hcb⟩

theorem arima_foldl_min (fit : ArimaOrder → Option ℚ) :
    ∀ (l : List ArimaOrder) (s : ArimaOrder × Option ℚ),
      ∀ o ∈ l, o ≠ (0, 0, 0) → ∀ a, fit o = some a →
        ∃ c, (l.foldl (arimaStep fit) s).2 = some c ∧ c ≤ a := by
  intro l
  induction l with
  | nil => intro s o ho; exact absurd ho (List.not_mem_nil o)
  | cons x xs ih =>
      intro s o ho hno a hfo
      rw [List.foldl_cons]
      rcases List.mem_cons.mp ho with rfl | ho2
      · obtain ⟨c, hc, hca⟩ := arimaStep_snd_success fit s o a hno hfo
        obtain ⟨d, hd, hdc⟩ := arima_foldl_snd_le fit xs (arimaStep fit s o) c hc
        exact ⟨d, hd, le_trans hdc hca⟩
      · exact ih (arimaStep fit s x) o ho2 hno a hfo

/-- C9: the order grid of `forecast_arima` is exactly p below 3, d below 2,
q below 3; with every fit failing (outside the skipped (0,0,0)) the search
returns the default (1,0,0); with any successful fit the returned order is a
grid order distinct from (0,0,0) whose fit succeeded with the lowest AIC
among all successful fits; and with no order given `forecast_arima` forecasts
with the searched order. -/
theorem claim_C9_arima :
    (∀ p d q : ℕ, ((p, d, q) ∈ arimaGrid ↔ p < 3 ∧ d < 2 ∧ q < 3))
    ∧ (∀ fit : ArimaOrder → Option ℚ,
        ((∀ o ∈ arimaGrid, o ≠ (0, 0, 0) → fit o = none) → bestArimaOrder fit = (1, 0, 0))
        ∧ (∀ o ∈ arimaGrid, o ≠ (0, 0, 0) → ∀ a, fit o = some a →
            bestArimaOrder fit ∈ arimaGrid ∧ bestArimaOrder fit ≠ (0, 0, 0)
            ∧ ∃ b, fit (bestArimaOrder fit) = some b
                ∧ ∀ o2 ∈ arimaGrid, o2 ≠ (0, 0, 0) → ∀ a2, fit o2 = some a2 → b ≤ a2))
    ∧ (∀ (fit : ArimaOrder → Option ℚ) (fw : ArimaOrder → Except String ℚ)
          (prices : List PriceRow), prices ≠ [] →
        forecast_arima fit fw prices none = fw (bestArimaOrder fit)) := by
  refine ⟨?_, ?_, ?_⟩
  · intro p d q
    simp only [arimaGrid, List.mem_flatMap, List.mem_map, List.mem_range]
    constructor
    · rintro ⟨p2, hp, d2, hd, q2, hq, heq⟩
      injection heq with e1 erest
      injection erest with e2 e3
      subst e1
      subst e2
      subst e3
      exact ⟨hp, hd, hq⟩
    · rintro ⟨hp, hd, hq⟩
      exact ⟨p, hp, d, hd, q, hq, rfl⟩
  · intro fit
    constructor
    · intro hall
      rw [bestArimaOrder, arima_foldl_fix fit arimaGrid _ hall]
    · intro o ho hno a hfo
      rcases arima_foldl_sound fit arimaGrid (1, 0, 0) none with hfix | ⟨o2, a2, hres, ho2, hno2, hfo2⟩
      · exfalso
        obtain ⟨c, hc, _⟩ := arima_foldl_min fit arimaGrid ((1, 0, 0), none) o ho hno a hfo
        rw [hfix] at hc
        exact Option.noConfusion hc
      · have hbo : bestArimaOrder fit = o2 := by rw [bestArimaOrder, hres]
        refine ⟨hbo ▸ ho2, hbo ▸ hno2, a2, by rw [hbo]; exact hfo2, ?_⟩
        intro o3 ho3 hno3 a3 hfo3
        obtain ⟨c, hc, hca⟩ := arima_foldl_min fit arimaGrid ((1, 0, 0), none) o3 ho3 hno3 a3 hfo3
        rw [hres] at hc
        have : a2 = c := by injection hc
        exact this ▸ hca
  · intro fit fw prices hne
    rw [forecast_arima, if_neg (by simpa using hne)]
    rfl

/-- A concrete fit oracle with two successes, for the witness below. -/
def witnessFit : ArimaOrder → Option ℚ :=
  fun o => if o = (2, 0, 0) then some 3 else if o = (1, 0, 1) then some 5 else none

theorem claim_C9_arima_witness :
    ((2, 0, 0) ∈ arimaGrid ∧ bestArimaOrder (fun _ => none) = (1, 0, 0))
    ∧ (bestArimaOrder witnessFit ∈ arimaGrid ∧ bestArimaOrder witnessFit ≠ (0, 0, 0)
        ∧ ∃ b, witnessFit (bestArimaOrder witnessFit) = some b
            ∧ ∀ o2 ∈ arimaGrid, o2 ≠ (0, 0, 0) → ∀ a2, witnessFit o2 = some a2 → b ≤ a2) :=
  ⟨⟨(claim_C9_arima.1 2 0 0).mpr (by omega), (claim_C9_arima.2.1 (fun _ => none)).1 (fun o _ _ => rfl)⟩,
   (claim_C9_arima.2.1 witnessFit).2 (2, 0, 0) ((claim_C9_arima.1 2 0 0).mpr (by omega))
     (by decide) 3 rfl⟩

/-! ### The operation simulator (plant.py, simulate_plant_operation) -/

/-- Stable insertion of a price row into a list sorted by timestamp. -/
def insertByTime (r : PriceRow) : List PriceRow → List PriceRow
  | [] => [r]
  | s :: rest =>
      if r.timestamp.leb s.timestamp then r :: s :: rest else s :: insertByTime r rest

/-- `prices.sort_values("timestamp")`: a stable sort by timestamp. -/
def sortPrices (l : List PriceRow) : List PriceRow := l.foldr insertByTime []

/-- The mask `(timestamp >= start) & (timestamp < start + Timedelta(days))`. -/
def inWindow (wStart wEnd t : Timestamp) : Bool := wStart.leb t && t.ltb wEnd

/-- `df.loc[df.index[mask][:n], "energy_mwh"] = 0`: zero the energy of the
first `n` rows satisfying the mask. -/
def zeroFirst (p : SimRow → Bool) : ℕ → List SimRow → List SimRow
  | _, [] => []
  | 0, df => df
  | n + 1, r :: rest =>
      if p r then { r with energy_mwh := 0 } :: zeroFirst p n rest
      else r :: zeroFirst p (n + 1) rest

/-- The maintenance while-loop: while `start <= end_time`, zero the energy of
the first `days * 24` rows inside `[start, start + days)` and advance `start`
by `interval` calendar months. The fuel argument only bounds the iteration
count; `applyMaintenance` passes enough fuel for the guard to fail first. -/
def maintLoop (maintenance_days maintenance_interval_months : ℕ) (end_time : Timestamp) :
    ℕ → Timestamp → List SimRow → List SimRow
  | 0, _, df => df
  | fuel + 1, start, df =>
      if start.leb end_time then
        maintLoop maintenance_days maintenance_interval_months end_time fuel
          (start.addMonths maintenance_interval_months)
          (zeroFirst
            (fun r => inWindow start (start.addDays maintenance_days) r.timestamp)
            (maintenance_days * 24) df)
      else df

/-- The `if maintenance_days > 0` block of `simulate_plant_operation`. -/
def applyMaintenance (maintenance_days maintenance_interval_months : ℕ)
    (df : List SimRow) : List SimRow :=
  if maintenance_days > 0 then
    maintLoop maintenance_days maintenance_interval_months
      ((df.getLastD default).timestamp)
      (((df.getLastD default).timestamp).monthIndex + 2)
      ((df.headD default).timestamp) df
  else df

/-- Fuel-cost resolution: a given per-MWh cost wins; otherwise a per-refueling
cost is amortized over one cycle's energy (30-day months) — Python raises
`ZeroDivisionError` when that cycle energy is zero — else zero. -/
def resolveFuelCost (fuel_cost_per_mwh fuel_cost_per_refueling : Option ℚ)
    (capacity_mw capacity_factor : ℚ) (refueling_cycle_months : ℕ) :
    Except String ℚ :=
  match fuel_cost_per_mwh with
  | some v => .ok v
  | none =>
      match fuel_cost_per_refueling with
      | none => .ok 0
      | some cost =>
          let hours_per_cycle : ℚ := (refueling_cycle_months : ℚ) * 30 * 24
          let energy_per_cycle := capacity_mw * capacity_factor * hours_per_cycle
          if energy_per_cycle = 0 then .error "float division by zero"
          else .ok (cost / energy_per_cycle)

/-- `df["energy_mwh"] = capacity_mw * capacity_factor` applied to one row. -/
def initRow (capacity_mw capacity_factor : ℚ) (r : PriceRow) : SimRow :=
  { timestamp := r.timestamp, price := r.price,
    energy_mwh := capacity_mw * capacity_factor }

/-- The revenue, fuel-cost and profit columns of one row. -/
def moneyRow (fuel_cost_per_mwh : ℚ) (r : SimRow) : OutRow :=
  { timestamp := r.timestamp, price := r.price, energy_mwh := r.energy_mwh,
    revenue := r.price * r.energy_mwh,
    fuel_cost := fuel_cost_per_mwh * r.energy_mwh,
    profit := r.price * r.energy_mwh - fuel_cost_per_mwh * r.energy_mwh }

/-- `simulate_plant_operation`: raises on an empty price series, and on a
zero cycle energy in the per-refueling fuel-cost amortization; otherwise
sorts by timestamp, sets the energy column, zeroes maintenance windows,
computes revenue, fuel cost and profit per hour, and returns the total
profit with the detail table. -/
def simulate_plant_operation (prices : List PriceRow) (capacity_mw : ℚ)
    (fuel_cost_per_mwh : Option ℚ) (maintenance_days : ℕ) (capacity_factor : ℚ)
    (maintenance_interval_months : ℕ) (fuel_cost_per_refueling : Option ℚ)
    (refueling_cycle_months : ℕ) : Except String SimResult :=
  if prices.isEmpty then .error "Price data required for simulation"
  else
    match resolveFuelCost fuel_cost_per_mwh fuel_cost_per_refueling
        capacity_mw capacity_factor refueling_cycle_months with
    | .error e => .error e
    | .ok fc =>
        let df2 := (applyMaintenance maintenance_days maintenance_interval_months
            ((sortPrices prices).map (initRow capacity_mw capacity_factor))).map (moneyRow fc)
        .ok { total_profit := (df2.map OutRow.profit).sum, df := df2 }

/-- The energy column of a simulation result, empty on a raise. -/
def simEnergies (e : Except String SimResult) : List ℚ :=
  match e with
  | .ok res => res.df.map OutRow.energy_mwh
  | .error _ => []

/-- The total profit of a simulation result, absent on a raise. -/
def simProfit (e : Except String SimResult) : Option ℚ :=
  match e with
  | .ok res => some res.total_profit
  | .error _ => none

/-- Hour i of January 2024 (valid for i < 744), the shape of the repository
tests' `pd.date_range("2024-01-01", freq="H")` fixtures. -/
def jan2024 (i : ℕ) : Timestamp := ⟨2024, 1, 1 + i / 24, i % 24⟩

/-- A contiguous hourly test series starting 2024-01-01 00:00. -/
def hourlySeries (n : ℕ) (price : ℚ) : List PriceRow :=
  (List.range n).map (fun (i : ℕ) => { timestamp := jan2024 i, price := price })

/-! ### Claim C1 -/

theorem C1_stage :
    applyMaintenance 1 12 ((sortPrices (hourlySeries 48 50)).map (initRow 1000 1))
      = (List.range 48).map
          (fun (i : ℕ) => ({ timestamp := jan2024 i, price := 50,
                             energy_mwh := if i < 24 then 0 else 1000 } : SimRow)) := by
  with_unfolding_all decide

theorem sum_map_eq_of_const {g : ℕ → ℚ} (n : ℕ) (c : ℚ)
    (h : ∀ i ∈ List.range n, g i = c) :
    ((List.range n).map g).sum = n * c := by
  rw [List.map_congr_left h, List.map_const', List.sum_replicate, List.length_range]
  simp [nsmul_eq_mul]

theorem C1_profit_sum :
    ((((List.range 48).map
        (fun (i : ℕ) => ({ timestamp := jan2024 i, price := 50,
                           energy_mwh := if i < 24 then 0 else 1000 } : SimRow))).map
      (moneyRow 10)).map OutRow.profit).sum = (50 - 10) * 1000 * 24 := by
  rw [List.map_map, List.map_map]
  rw [show (48 : ℕ) = 24 + 24 from rfl, List.range_add, List.map_append, List.sum_append,
    List.map_map]
  rw [sum_map_eq_of_const 24 (0 : ℚ) (fun i hi => by
    have hlt : i < 24 := List.mem_range.mp hi
    simp [Function.comp, moneyRow, hlt])]
  rw [sum_map_eq_of_const 24 (40000 : ℚ) (fun i hi => by
    have hlt : ¬ (24 + i < 24) := by omega
    simp [Function.comp, moneyRow, hlt]
    norm_num)]
  norm_num

/-- C1: on the 48-hour constant test series at price 50 with 1000 MW,
capacity factor 1, fuel cost 10 and one maintenance day, the simulator
zeroes the energy of the first 24 hours, leaves 1000 MWh in each of the
remaining 24 hours, and returns total profit (50 - 10) * 1000 * 24. -/
theorem claim_C1_simulation :
    simEnergies (simulate_plant_operation (hourlySeries 48 50) 1000 (some 10) 1 1 12 none 18)
        = List.replicate 24 0 ++ List.replicate 24 1000
    ∧ simProfit (simulate_plant_operation (hourlySeries 48 50) 1000 (some 10) 1 1 12 none 18)
        = some ((50 - 10) * 1000 * 24) := by
  constructor
  · with_unfolding_all decide
  · have hne : ¬ ((hourlySeries 48 50).isEmpty = true) := by
      with_unfolding_all decide
    rw [simulate_plant_operation, if_neg hne,
      show resolveFuelCost (some 10) none 1000 1 18 = Except.ok 10 from rfl]
    show some _ = _
    rw [C1_stage]
    rw [C1_profit_sum]


/-! ### Helper lemmas for the simulator -/

theorem insertByTime_length (r : PriceRow) (l : List PriceRow) :
    (insertByTime r l).length = l.length + 1 := by
  induction l with
  | nil => rfl
  | cons s rest ih =>
      rw [insertByTime]
      by_cases h : r.timestamp.leb s.timestamp
      · rw [if_pos h]
        rfl
      · rw [if_neg h, List.length_cons, List.length_cons, ih]

theorem sortPrices_length (l : List PriceRow) : (sortPrices l).length = l.length := by
  induction l with
  | nil => rfl
  | cons r rest ih =>
      show (insertByTime r (sortPrices rest)).length = _
      rw [insertByTime_length, ih]
      rfl

theorem insertByTime_mem (x r : PriceRow) (l : List PriceRow) :
    x ∈ insertByTime r l ↔ x = r ∨ x ∈ l := by
  induction l with
  | nil => simp [insertByTime]
  | cons s rest ih =>
      rw [insertByTime]
      by_cases h : r.timestamp.leb s.timestamp
      · rw [if_pos h]
        simp [List.mem_cons]
      · rw [if_neg h]
        simp only [List.mem_cons, ih]
        tauto

theorem sortPrices_mem (x : PriceRow) (l : List PriceRow) : x ∈ sortPrices l ↔ x ∈ l := by
  induction l with
  | nil => simp [sortPrices]
  | cons r rest ih =>
      show x ∈ insertByTime r (sortPrices rest) ↔ _
      rw [insertByTime_mem, ih]
      simp [List.mem_cons]

theorem getD_map_timestamp (df : List SimRow) (i : ℕ) :
    (df.map SimRow.timestamp).getD i default = (df.getD i default).timestamp := by
  induction df generalizing i with
  | nil => cases i <;> rfl
  | cons r rest ih =>
      cases i with
      | zero => rfl
      | succ j => simpa using ih j

theorem getD_map_energy (df : List SimRow) (i : ℕ) :
    (df.map SimRow.energy_mwh).getD i 0 = (df.getD i default).energy_mwh := by
  induction df generalizing i with
  | nil => cases i <;> rfl
  | cons r rest ih =>
      cases i with
      | zero => rfl
      | succ j => simpa using ih j

theorem zeroFirst_cons_succ (p : SimRow → Bool) (n : ℕ) (r : SimRow) (rest : List SimRow) :
    zeroFirst p (n + 1) (r :: rest)
      = if p r then { r with energy_mwh := 0 } :: zeroFirst p n rest
        else r :: zeroFirst p (n + 1) rest := rfl

theorem zeroFirst_length (p : SimRow → Bool) :
    ∀ (df : List SimRow) (n : ℕ), (zeroFirst p n df).length = df.length := by
  intro df
  induction df with
  | nil => intro n; cases n <;> rfl
  | cons r rest ih =>
      intro n
      cases n with
      | zero => rfl
      | succ m =>
          rw [zeroFirst_cons_succ]
          by_cases h : p r
          · rw [if_pos h, List.length_cons, List.length_cons, ih]
          · rw [if_neg h, List.length_cons, List.length_cons, ih]

theorem zeroFirst_map_timestamp (p : SimRow → Bool) :
    ∀ (df : List SimRow) (n : ℕ),
      (zeroFirst p n df).map SimRow.timestamp = df.map SimRow.timestamp := by
  intro df
  induction df with
  | nil => intro n; cases n <;> rfl
  | cons r rest ih =>
      intro n
      cases n with
      | zero => rfl
      | succ m =>
          rw [zeroFirst_cons_succ]
          by_cases h : p r
          · rw [if_pos h, List.map_cons, List.map_cons, ih]
          · rw [if_neg h, List.map_cons, List.map_cons, ih]

theorem countP_take_pos (p : SimRow → Bool) :
    ∀ (l : List SimRow) (i : ℕ), i < l.length → p (l.getD i default) = true →
      0 < (l.take (i + 1)).countP p := by
  intro l
  induction l with
  | nil => intro i hi; simp at hi
  | cons r rest ih =>
      intro i hi hp
      cases i with
      | zero =>
          rw [List.take_succ_cons, List.take_zero, List.countP_cons]
          have hr : p r = true := hp
          rw [hr]
          simp
      | succ j =>
          rw [List.take_succ_cons, List.countP_cons]
          have := ih j (by simpa using hi) (by simpa using hp)
          omega

theorem zeroFirst_energy_zero (p : SimRow → Bool) :
    ∀ (df : List SimRow) (n i : ℕ), i < df.length →
      p (df.getD i default) = true →
      (df.take (i + 1)).countP p ≤ n →
      ((zeroFirst p n df).getD i default).energy_mwh = 0 := by
  intro df
  induction df with
  | nil => intro n i hi; simp at hi
  | cons r rest ih =>
      intro n i hi hp hcnt
      cases n with
      | zero =>
          exfalso
          have := countP_take_pos p (r :: rest) i hi hp
          omega
      | succ m =>
          rw [zeroFirst_cons_succ]
          cases i with
          | zero =>
              have hr : p r = true := hp
              rw [if_pos hr]
              rfl
          | succ j =>
              by_cases hr : p r = true
              · rw [if_pos hr]
                rw [List.getD_cons_succ]
                apply ih m j (by simpa using hi) (by simpa using hp)
                rw [List.take_succ_cons, List.countP_cons, hr] at hcnt
                simp at hcnt
                omega
              · rw [if_neg hr]
                rw [List.getD_cons_succ]
                apply ih (m + 1) j (by simpa using hi) (by simpa using hp)
                have hrf : p r = false := by simpa using hr
                rw [List.take_succ_cons, List.countP_cons, hrf] at hcnt
                simp at hcnt
                omega

theorem zeroFirst_energy_keep (p : SimRow → Bool) :
    ∀ (df : List SimRow) (n i : ℕ),
      ¬ (p (df.getD i default) = true ∧ (df.take (i + 1)).countP p ≤ n) →
      ((zeroFirst p n df).getD i default).energy_mwh = (df.getD i default).energy_mwh := by
  intro df
  induction df with
  | nil => intro n i _; cases n <;> rfl
  | cons r rest ih =>
      intro n i hyp
      cases n with
      | zero => rfl
      | succ m =>
          rw [zeroFirst_cons_succ]
          cases i with
          | zero =>
              have hr : ¬ (p r = true) := by
                intro hpr
                apply hyp
                refine ⟨hpr, ?_⟩
                rw [List.take_succ_cons, List.take_zero, List.countP_cons, hpr]
                simp
              rw [if_neg hr]
              rfl
          | succ j =>
              by_cases hr : p r = true
              · rw [if_pos hr, List.getD_cons_succ, List.getD_cons_succ]
                apply ih m j
                intro ⟨hA, hB⟩
                apply hyp
                refine ⟨by simpa using hA, ?_⟩
                rw [List.take_succ_cons, List.countP_cons, hr]
                simp
                omega
              · rw [if_neg hr, List.getD_cons_succ, List.getD_cons_succ]
                apply ih (m + 1) j
                intro ⟨hA, hB⟩
                apply hyp
                refine ⟨by simpa using hA, ?_⟩
                have hrf : p r = false := by simpa using hr
                rw [List.take_succ_cons, List.countP_cons, hrf]
                simp
                omega


/-! ### Maintenance-window characterization -/

/-- The k-th maintenance window start of the code: `start` advanced k times
by `interval` calendar months (`pd.DateOffset`). -/
def windowStart (s0 : Timestamp) (interval : ℕ) : ℕ → Timestamp
  | 0 => s0
  | k + 1 => (windowStart s0 interval k).addMonths interval

/-- Row i is among the first `days * 24` rows whose timestamps fall inside
the maintenance window starting at `w`. -/
def claimSelected (days : ℕ) (w : Timestamp) (ts : List Timestamp) (i : ℕ) : Prop :=
  inWindow w (w.addDays days) (ts.getD i default) = true
  ∧ (ts.take (i + 1)).countP (fun u => inWindow w (w.addDays days) u) ≤ days * 24

instance (days : ℕ) (w : Timestamp) (ts : List Timestamp) (i : ℕ) :
    Decidable (claimSelected days w ts i) :=
  instDecidableAnd

theorem windowStart_shift (s0 : Timestamp) (interval : ℕ) :
    ∀ k, windowStart s0 interval (k + 1) = windowStart (s0.addMonths interval) interval k := by
  intro k
  induction k with
  | zero => rfl
  | succ j ih =>
      show (windowStart s0 interval (j + 1)).addMonths interval = _
      rw [ih]
      rfl

theorem maintLoop_succ (days interval : ℕ) (endT : Timestamp) (fuel : ℕ)
    (start : Timestamp) (df : List SimRow) :
    maintLoop days interval endT (fuel + 1) start df
      = if start.leb endT then
          maintLoop days interval endT fuel (start.addMonths interval)
            (zeroFirst (fun r => inWindow start (start.addDays days) r.timestamp)
              (days * 24) df)
        else df := rfl

theorem maintLoop_length (days interval : ℕ) (endT : Timestamp) :
    ∀ (fuel : ℕ) (start : Timestamp) (df : List SimRow),
      (maintLoop days interval endT fuel start df).length = df.length := by
  intro fuel
  induction fuel with
  | zero => intro start df; rfl
  | succ f ih =>
      intro start df
      rw [maintLoop_succ]
      by_cases h : start.leb endT = true
      · rw [if_pos h, ih, zeroFirst_length]
      · rw [if_neg h]

theorem maintLoop_map_timestamp (days interval : ℕ) (endT : Timestamp) :
    ∀ (fuel : ℕ) (start : Timestamp) (df : List SimRow),
      (maintLoop days interval endT fuel start df).map SimRow.timestamp
        = df.map SimRow.timestamp := by
  intro fuel
  induction fuel with
  | zero => intro start df; rfl
  | succ f ih =>
      intro start df
      rw [maintLoop_succ]
      by_cases h : start.leb endT = true
      · rw [if_pos h, ih, zeroFirst_map_timestamp]
      · rw [if_neg h]

theorem zeroFirst_energy_pres (p : SimRow → Bool) (df : List SimRow) (n i : ℕ)
    (h : (df.getD i default).energy_mwh = 0) :
    ((zeroFirst p n df).getD i default).energy_mwh = 0 := by
  by_cases hc : p (df.getD i default) = true ∧ (df.take (i + 1)).countP p ≤ n
  · by_cases hlen : i < df.length
    · exact zeroFirst_energy_zero p df n i hlen hc.1 hc.2
    · rw [List.getD_eq_default]
      · rfl
      · rw [zeroFirst_length]
        omega
  · rw [zeroFirst_energy_keep p df n i hc, h]

theorem maintLoop_energy_pres (days interval : ℕ) (endT : Timestamp) :
    ∀ (fuel : ℕ) (start : Timestamp) (df : List SimRow) (i : ℕ),
      (df.getD i default).energy_mwh = 0 →
      ((maintLoop days interval endT fuel start df).getD i default).energy_mwh = 0 := by
  intro fuel
  induction fuel with
  | zero => intro start df i h; exact h
  | succ f ih =>
      intro start df i h
      rw [maintLoop_succ]
      by_cases hle : start.leb endT = true
      · rw [if_pos hle]
        exact ih _ _ i (zeroFirst_energy_pres _ df _ i h)
      · rw [if_neg hle]
        exact h

theorem sel_translate (days : ℕ) (w : Timestamp) (df : List SimRow) (i : ℕ) :
    claimSelected days w (df.map SimRow.timestamp) i
      ↔ ((fun r => inWindow w (w.addDays days) r.timestamp) (df.getD i default) = true
          ∧ (df.take (i + 1)).countP (fun r => inWindow w (w.addDays days) r.timestamp)
              ≤ days * 24) := by
  unfold claimSelected
  rw [getD_map_timestamp, ← List.map_take, List.countP_map]
  rfl

theorem maintLoop_energy_zero (days interval : ℕ) (endT : Timestamp) :
    ∀ (fuel : ℕ) (start : Timestamp) (df : List SimRow) (i : ℕ), i < df.length →
      (∃ k < fuel, (∀ j ≤ k, (windowStart start interval j).leb endT = true)
          ∧ claimSelected days (windowStart start interval k) (df.map SimRow.timestamp) i) →
      ((maintLoop days interval endT fuel start df).getD i default).energy_mwh = 0 := by
  intro fuel
  induction fuel with
  | zero =>
      rintro start df i _ ⟨k, hk, -⟩
      omega
  | succ f ih =>
      rintro start df i hi ⟨k, hk, hchain, hsel⟩
      have hle : start.leb endT = true := hchain 0 (Nat.zero_le k)
      rw [maintLoop_succ, if_pos hle]
      cases k with
      | zero =>
          apply maintLoop_energy_pres
          have hr := (sel_translate days (windowStart start interval 0) df i).mp hsel
          exact zeroFirst_energy_zero _ df (days * 24) i hi hr.1 hr.2
      | succ k2 =>
          apply ih (start.addMonths interval) _ i
          · rw [zeroFirst_length]
            exact hi
          · refine ⟨k2, by omega, ?_, ?_⟩
            · intro j hj
              have hc := hchain (j + 1) (by omega)
              rwa [windowStart_shift] at hc
            · rw [← windowStart_shift]
              rw [zeroFirst_map_timestamp]
              exact hsel

theorem maintLoop_energy_keep (days interval : ℕ) (endT : Timestamp) :
    ∀ (fuel : ℕ) (start : Timestamp) (df : List SimRow) (i : ℕ),
      (∀ k < fuel, ¬ ((∀ j ≤ k, (windowStart start interval j).leb endT = true)
          ∧ claimSelected days (windowStart start interval k) (df.map SimRow.timestamp) i)) →
      ((maintLoop days interval endT fuel start df).getD i default).energy_mwh
        = (df.getD i default).energy_mwh := by
  intro fuel
  induction fuel with
  | zero => intro start df i _; rfl
  | succ f ih =>
      intro start df i h
      rw [maintLoop_succ]
      by_cases hle : start.leb endT = true
      · rw [if_pos hle]
        have h0 : ¬ claimSelected days start (df.map SimRow.timestamp) i := by
          intro hs
          apply h 0 (by omega)
          refine ⟨?_, hs⟩
          intro j hj
          have hj0 : j = 0 := by omega
          subst hj0
          exact hle
        have hdf2 : ((zeroFirst (fun r => inWindow start (start.addDays days) r.timestamp)
            (days * 24) df).getD i default).energy_mwh = (df.getD i default).energy_mwh := by
          apply zeroFirst_energy_keep
          intro hAB
          exact h0 ((sel_translate days start df i).mpr hAB)
        rw [ih (start.addMonths interval) _ i, hdf2]
        intro k hk hKS
        apply h (k + 1) (by omega)
        constructor
        · intro j hj
          cases j with
          | zero => exact hle
          | succ j2 =>
              rw [windowStart_shift]
              exact hKS.1 j2 (by omega)
        · rw [windowStart_shift]
          rw [← zeroFirst_map_timestamp (fun r => inWindow start (start.addDays days) r.timestamp)
            df (days * 24)]
          exact hKS.2
      · rw [if_neg hle]

/-! ### Month-index bounds for the loop fuel -/

theorem monthIndex_addMonths (t : Timestamp) (m : ℕ) :
    (t.addMonths m).monthIndex = t.monthIndex + m := by
  show (t.year * 12 + (t.month - 1) + m) / 12 * 12
      + ((t.year * 12 + (t.month - 1) + m) % 12 + 1 - 1)
    = t.year * 12 + (t.month - 1) + m
  have h := Nat.div_add_mod (t.year * 12 + (t.month - 1) + m) 12
  omega

theorem addMonths_month_le (t : Timestamp) (m : ℕ) : (t.addMonths m).month ≤ 12 := by
  show (t.year * 12 + (t.month - 1) + m) % 12 + 1 ≤ 12
  have h := Nat.mod_lt (t.year * 12 + (t.month - 1) + m) (show 0 < 12 by omega)
  omega

theorem windowStart_monthIndex (s0 : Timestamp) (interval : ℕ) :
    ∀ k, (windowStart s0 interval k).monthIndex = s0.monthIndex + k * interval := by
  intro k
  induction k with
  | zero => simp [windowStart]
  | succ j ih =>
      show ((windowStart s0 interval j).addMonths interval).monthIndex = _
      rw [monthIndex_addMonths, ih]
      ring

theorem windowStart_month_le (s0 : Timestamp) (interval k : ℕ) (h : s0.month ≤ 12) :
    (windowStart s0 interval k).month ≤ 12 := by
  cases k with
  | zero => exact h
  | succ j => exact addMonths_month_le _ interval

theorem leb_monthIndex_le (a b : Timestamp) (ha : a.month ≤ 12) (h : a.leb b = true) :
    a.monthIndex ≤ b.monthIndex := by
  unfold Timestamp.leb at h
  unfold Timestamp.monthIndex
  split_ifs at h <;> omega

theorem monthIndex_lt_leb (a b : Timestamp) (hb : b.month ≤ 12)
    (h : a.monthIndex < b.monthIndex) : a.leb b = true := by
  unfold Timestamp.monthIndex at h
  unfold Timestamp.leb
  split_ifs <;> first | rfl | (exfalso; omega)

theorem chain_of_guard (s0 endT : Timestamp) (interval k : ℕ)
    (hint : 0 < interval) (hs : s0.month ≤ 12) (hend : endT.month ≤ 12)
    (h : (windowStart s0 interval k).leb endT = true) :
    ∀ j ≤ k, (windowStart s0 interval j).leb endT = true := by
  intro j hj
  rcases Nat.eq_or_lt_of_le hj with rfl | hjk
  · exact h
  · apply monthIndex_lt_leb _ _ hend
    have h1 := leb_monthIndex_le _ _ (windowStart_month_le s0 interval k hs) h
    rw [windowStart_monthIndex] at h1
    rw [windowStart_monthIndex]
    have h2 : j * interval < k * interval := (Nat.mul_lt_mul_right hint).mpr hjk
    omega

theorem guard_k_le (s0 endT : Timestamp) (interval k : ℕ)
    (hint : 0 < interval) (hs : s0.month ≤ 12)
    (h : (windowStart s0 interval k).leb endT = true) : k ≤ endT.monthIndex := by
  have h1 := leb_monthIndex_le _ _ (windowStart_month_le s0 interval k hs) h
  rw [windowStart_monthIndex] at h1
  have h2 : k ≤ k * interval := Nat.le_mul_of_pos_right k hint
  omega


/-! ### Bridging the simulator pipeline -/

theorem simEnergies_simulate (prices : List PriceRow) (c f : ℚ) (fcopt : Option ℚ)
    (days interval : ℕ) (fropt : Option ℚ) (rm : ℕ) (fc : ℚ)
    (hne : ¬ (prices.isEmpty = true))
    (hfc : resolveFuelCost fcopt fropt c f rm = Except.ok fc) :
    simEnergies (simulate_plant_operation prices c fcopt days f interval fropt rm)
      = (applyMaintenance days interval ((sortPrices prices).map (initRow c f))).map
          SimRow.energy_mwh := by
  rw [simulate_plant_operation, if_neg hne, hfc]
  show ((applyMaintenance days interval ((sortPrices prices).map (initRow c f))).map
      (moneyRow fc)).map OutRow.energy_mwh = _
  rw [List.map_map]
  rfl

theorem headD_timestamp_map (c f : ℚ) (l : List PriceRow) :
    ((l.map (initRow c f)).headD default).timestamp = (l.headD default).timestamp := by
  cases l with
  | nil => rfl
  | cons r rest => rfl

theorem getLastD_timestamp_map (c f : ℚ) :
    ∀ (l : List PriceRow) (d : SimRow) (d2 : PriceRow), d.timestamp = d2.timestamp →
      ((l.map (initRow c f)).getLastD d).timestamp = (l.getLastD d2).timestamp := by
  intro l
  induction l with
  | nil => intro d d2 h; exact h
  | cons r rest ih =>
      intro d d2 h
      rw [List.map_cons, List.getLastD_cons, List.getLastD_cons]
      exact ih (initRow c f r) r rfl

theorem map_timestamp_initRow (c f : ℚ) (l : List PriceRow) :
    (l.map (initRow c f)).map SimRow.timestamp = l.map PriceRow.timestamp := by
  rw [List.map_map]
  rfl

theorem applyMaintenance_pos (days interval : ℕ) (df : List SimRow) (h : 0 < days) :
    applyMaintenance days interval df
      = maintLoop days interval ((df.getLastD default).timestamp)
          (((df.getLastD default).timestamp).monthIndex + 2)
          ((df.headD default).timestamp) df := by
  rw [applyMaintenance, if_pos h]

theorem getD_initRow_energy (c f : ℚ) :
    ∀ (l : List PriceRow) (i : ℕ), i < l.length →
      ((l.map (initRow c f)).getD i default).energy_mwh = c * f := by
  intro l
  induction l with
  | nil => intro i hi; simp at hi
  | cons r rest ih =>
      intro i hi
      cases i with
      | zero => rfl
      | succ j => simpa using ih j (by simpa using hi)

theorem headD_mem {α : Type} (l : List α) (d : α) (h : l ≠ []) : l.headD d ∈ l := by
  cases l with
  | nil => exact absurd rfl h
  | cons a rest => simp

theorem getLastD_mem_or {α : Type} :
    ∀ (l : List α) (d : α), l.getLastD d ∈ l ∨ l.getLastD d = d := by
  intro l
  induction l with
  | nil => intro d; exact Or.inr rfl
  | cons a rest ih =>
      intro d
      rw [List.getLastD_cons]
      rcases ih a with h | h
      · exact Or.inl (List.mem_cons_of_mem a h)
      · exact Or.inl (by rw [h]; exact List.mem_cons_self a rest)

theorem getLastD_mem {α : Type} (l : List α) (d : α) (h : l ≠ []) : l.getLastD d ∈ l := by
  cases l with
  | nil => exact absurd rfl h
  | cons a rest =>
      rw [List.getLastD_cons]
      rcases getLastD_mem_or rest a with h2 | h2
      · exact List.mem_cons_of_mem a h2
      · rw [h2]
        exact List.mem_cons_self a rest

/-! ### Claim C2, amended form -/

/-- C2 (amended): for every non-empty price series with calendar-valid
months, positive maintenance days, a positive month interval, and fuel-cost
parameters whose resolution succeeds (it is independent of the energy
column), the simulator zeroes the energy of exactly the first
`maintenance_days * 24` rows falling inside each maintenance window, where
the k-th window starts at the first (sorted) timestamp advanced by
k * interval calendar months (`pd.DateOffset`, day-of-month clamped) and
windows recur while their start is at most the last timestamp; every other
row keeps capacity_mw * capacity_factor. -/
theorem claim_C2_amended (prices : List PriceRow) (c f : ℚ) (fcopt : Option ℚ)
    (days interval : ℕ) (fropt : Option ℚ) (rm : ℕ) (fc : ℚ)
    (hne : prices ≠ []) (hdays : 0 < days) (hint : 0 < interval)
    (hvalid : ∀ r ∈ prices, r.timestamp.month ≤ 12)
    (hfc : resolveFuelCost fcopt fropt c f rm = Except.ok fc) :
    (simEnergies (simulate_plant_operation prices c fcopt days f interval fropt rm)).length
        = prices.length
    ∧ ∀ i < prices.length,
        ((∃ k, (windowStart ((sortPrices prices).headD default).timestamp interval k).leb
                (((sortPrices prices).getLastD default).timestamp) = true
              ∧ claimSelected days
                  (windowStart ((sortPrices prices).headD default).timestamp interval k)
                  ((sortPrices prices).map PriceRow.timestamp) i) →
            (simEnergies
              (simulate_plant_operation prices c fcopt days f interval fropt rm)).getD i 0
              = 0)
        ∧ ((∀ k, ¬ ((windowStart ((sortPrices prices).headD default).timestamp interval k).leb
                (((sortPrices prices).getLastD default).timestamp) = true
              ∧ claimSelected days
                  (windowStart ((sortPrices prices).headD default).timestamp interval k)
                  ((sortPrices prices).map PriceRow.timestamp) i)) →
            (simEnergies
              (simulate_plant_operation prices c fcopt days f interval fropt rm)).getD i 0
              = c * f) := by
  have hguard : ¬ (prices.isEmpty = true) := by simpa using hne
  have hE := simEnergies_simulate prices c f fcopt days interval fropt rm fc hguard hfc
  have hs0 : (((sortPrices prices).map (initRow c f)).headD default).timestamp
      = ((sortPrices prices).headD default).timestamp := headD_timestamp_map c f _
  have hendT : (((sortPrices prices).map (initRow c f)).getLastD default).timestamp
      = ((sortPrices prices).getLastD default).timestamp :=
    getLastD_timestamp_map c f _ default default rfl
  have hts : ((sortPrices prices).map (initRow c f)).map SimRow.timestamp
      = (sortPrices prices).map PriceRow.timestamp := map_timestamp_initRow c f _
  have hlen0 : ((sortPrices prices).map (initRow c f)).length = prices.length := by
    rw [List.length_map, sortPrices_length]
  have hAM := applyMaintenance_pos days interval ((sortPrices prices).map (initRow c f)) hdays
  rw [hs0, hendT] at hAM
  have hsortne : sortPrices prices ≠ [] := by
    rw [← List.length_pos, sortPrices_length, List.length_pos]
    exact hne
  have hs0month : ((sortPrices prices).headD default).timestamp.month ≤ 12 :=
    hvalid _ ((sortPrices_mem _ prices).mp (headD_mem _ default hsortne))
  have hendmonth : ((sortPrices prices).getLastD default).timestamp.month ≤ 12 :=
    hvalid _ ((sortPrices_mem _ prices).mp (getLastD_mem _ default hsortne))
  constructor
  · rw [hE, List.length_map, hAM, maintLoop_length, hlen0]
  · intro i hi
    constructor
    · rintro ⟨k, hg, hsel⟩
      rw [hE, getD_map_energy, hAM]
      apply maintLoop_energy_zero days interval _ _ _ _ i (by rw [hlen0]; exact hi)
      refine ⟨k, ?_, ?_, ?_⟩
      · have := guard_k_le _ _ interval k hint hs0month hg
        omega
      · exact chain_of_guard _ _ interval k hint hs0month hendmonth hg
      · rw [hts]
        exact hsel
    · intro hnone
      rw [hE, getD_map_energy, hAM]
      rw [maintLoop_energy_keep]
      · exact getD_initRow_energy c f _ i (by rw [sortPrices_length]; exact hi)
      · intro k _ hKS
        apply hnone k
        refine ⟨hKS.1 k (le_refl k), ?_⟩
        rw [← hts]
        exact hKS.2


/-! ### Claim C2, counterexample to the stated form -/

/-- The k-th maintenance window start as the claim states it: the first
timestamp plus k * interval * 30 days (30-day months). -/
def windowStart30 (s0 : Timestamp) (interval k : ℕ) : Timestamp :=
  s0.addDays (k * interval * 30)

/-- C2 counterexample: on the contiguous hourly series covering January 2024
(721 rows, 2024-01-01 00:00 through 2024-01-31 00:00) with one maintenance
day recurring every month, the claim's 30-day-month rule places the second
window start at 2024-01-31 00:00 (within the series) and so predicts zero
energy at row 720; the code's calendar-month rule (`pd.DateOffset`) places
the second window at 2024-02-01, past the series end, and leaves row 720 at
full energy 1000. -/
theorem claim_C2_counterexample :
    (windowStart30 (((sortPrices (hourlySeries 721 50)).headD default).timestamp) 1 1).leb
        (((sortPrices (hourlySeries 721 50)).getLastD default).timestamp) = true
    ∧ claimSelected 1
        (windowStart30 (((sortPrices (hourlySeries 721 50)).headD default).timestamp) 1 1)
        ((sortPrices (hourlySeries 721 50)).map PriceRow.timestamp) 720
    ∧ (simEnergies
        (simulate_plant_operation (hourlySeries 721 50) 1000 (some 10) 1 1 1 none 18)).getD
        720 0 = 1000 := by
  refine ⟨?_, ?_, ?_⟩
  · with_unfolding_all decide
  · with_unfolding_all decide
  · have hvalid : ∀ p ∈ hourlySeries 721 50, p.timestamp.month ≤ 12 := by
      intro p hp
      simp only [hourlySeries, List.mem_map, List.mem_range] at hp
      obtain ⟨i, -, rfl⟩ := hp
      show (1 : ℕ) ≤ 12
      omega
    have hne : hourlySeries 721 50 ≠ [] := by
      simp [hourlySeries]
    have h := (claim_C2_amended (hourlySeries 721 50) 1000 1 (some 10) 1 1 none 18 10
      hne (by omega) (by omega) hvalid rfl).2 720 (by simp [hourlySeries])
    have hgoal := h.2
    rw [show (1000 : ℚ) * 1 = 1000 by norm_num] at hgoal
    apply hgoal
    intro k
    rintro ⟨hg, hsel⟩
    cases k with
    | zero =>
        exact absurd hsel.1 (by with_unfolding_all decide)
    | succ k2 =>
        have hsm : (((sortPrices (hourlySeries 721 50)).headD default).timestamp).month ≤ 12 := by
          with_unfolding_all decide
        have h1 := leb_monthIndex_le _ _
          (windowStart_month_le (((sortPrices (hourlySeries 721 50)).headD default).timestamp)
            1 (k2 + 1) hsm) hg
        rw [windowStart_monthIndex] at h1
        have h2 : (((sortPrices (hourlySeries 721 50)).headD default).timestamp).monthIndex
            = 24288 := by
          with_unfolding_all decide
        have h3 : (((sortPrices (hourlySeries 721 50)).getLastD default).timestamp).monthIndex
            = 24288 := by
          with_unfolding_all decide
        omega

theorem claim_C2_amended_witness :
    (simEnergies
      (simulate_plant_operation (hourlySeries 3 50) 1000 (some 10) 1 1 12 none 18)).getD 0 0
      = 0 := by
  have hv : ∀ p ∈ hourlySeries 3 50, p.timestamp.month ≤ 12 := by
    with_unfolding_all decide
  have h := (claim_C2_amended (hourlySeries 3 50) 1000 1 (some 10) 1 12 none 18 10
      (by with_unfolding_all decide) (by omega) (by omega) hv rfl).2 0
      (by with_unfolding_all decide)
  exact h.1 ⟨0, by with_unfolding_all decide,
    by with_unfolding_all decide, by with_unfolding_all decide⟩

/-! ### Claim C7 -/

theorem zeroFirst_energy_mem (p : SimRow → Bool) :
    ∀ (df : List SimRow) (n : ℕ) (row : SimRow), row ∈ zeroFirst p n df →
      row.energy_mwh = 0 ∨ ∃ s ∈ df, row.energy_mwh = s.energy_mwh := by
  intro df
  induction df with
  | nil =>
      intro n row h
      cases n <;> simp [zeroFirst] at h
  | cons r rest ih =>
      intro n row h
      cases n with
      | zero => exact Or.inr ⟨row, h, rfl⟩
      | succ m =>
          rw [zeroFirst_cons_succ] at h
          by_cases hp : p r = true
          · rw [if_pos hp] at h
            rcases List.mem_cons.mp h with rfl | h2
            · exact Or.inl rfl
            · rcases ih m row h2 with h3 | ⟨s, hs, he⟩
              · exact Or.inl h3
              · exact Or.inr ⟨s, List.mem_cons_of_mem r hs, he⟩
          · rw [if_neg hp] at h
            rcases List.mem_cons.mp h with rfl | h2
            · exact Or.inr ⟨row, List.mem_cons_self row rest, rfl⟩
            · rcases ih (m + 1) row h2 with h3 | ⟨s, hs, he⟩
              · exact Or.inl h3
              · exact Or.inr ⟨s, List.mem_cons_of_mem r hs, he⟩

theorem maintLoop_energy_mem (days interval : ℕ) (endT : Timestamp) :
    ∀ (fuel : ℕ) (start : Timestamp) (df : List SimRow) (row : SimRow),
      row ∈ maintLoop days interval endT fuel start df →
      row.energy_mwh = 0 ∨ ∃ s ∈ df, row.energy_mwh = s.energy_mwh := by
  intro fuel
  induction fuel with
  | zero => intro start df row h; exact Or.inr ⟨row, h, rfl⟩
  | succ f ih =>
      intro start df row h
      rw [maintLoop_succ] at h
      by_cases hle : start.leb endT = true
      · rw [if_pos hle] at h
        rcases ih _ _ row h with h2 | ⟨s, hs, he⟩
        · exact Or.inl h2
        · rcases zeroFirst_energy_mem _ df _ s hs with h3 | ⟨s2, hs2, he2⟩
          · exact Or.inl (he.trans h3)
          · exact Or.inr ⟨s2, hs2, he.trans he2⟩
      · rw [if_neg hle] at h
        exact Or.inr ⟨row, h, rfl⟩

theorem applyMaintenance_energy_mem (days interval : ℕ) (df : List SimRow) (row : SimRow)
    (h : row ∈ applyMaintenance days interval df) :
    row.energy_mwh = 0 ∨ ∃ s ∈ df, row.energy_mwh = s.energy_mwh := by
  by_cases hd : days > 0
  · rw [applyMaintenance, if_pos hd] at h
    exact maintLoop_energy_mem days interval _ _ _ df row h
  · rw [applyMaintenance, if_neg hd] at h
    exact Or.inr ⟨row, h, rfl⟩

/-- C7 counterexample: with refueling cycle length m = 0 the equivalence
fails: the cycle energy is zero, so the refueling variant raises
(`ZeroDivisionError` in Python, `0.0 / 0.0` here since the claim's
per-refueling cost is also 0) and surfaces no profit, while the per-MWh
variant returns profit (50 - 10) * 1000 = 40000 on a one-row series at
price 50. -/
theorem claim_C7_counterexample :
    ¬ (simProfit (simulate_plant_operation (hourlySeries 1 50) 1000 none 0 1 12
          (some (((0 : ℕ) : ℚ) * 30 * 24 * 1000 * 1 * 10)) 0)
        = simProfit
            (simulate_plant_operation (hourlySeries 1 50) 1000 (some 10) 0 1 12 none 18))
    ∧ simProfit (simulate_plant_operation (hourlySeries 1 50) 1000 none 0 1 12
          (some (((0 : ℕ) : ℚ) * 30 * 24 * 1000 * 1 * 10)) 0) = none
    ∧ simProfit (simulate_plant_operation (hourlySeries 1 50) 1000 (some 10) 0 1 12 none 18)
          = some 40000 := by
  have hA : simProfit (simulate_plant_operation (hourlySeries 1 50) 1000 none 0 1 12
      (some (((0 : ℕ) : ℚ) * 30 * 24 * 1000 * 1 * 10)) 0) = none := by
    with_unfolding_all decide
  have hB : simProfit
      (simulate_plant_operation (hourlySeries 1 50) 1000 (some 10) 0 1 12 none 18)
      = some 40000 := by
    have hne : ¬ ((hourlySeries 1 50).isEmpty = true) := by with_unfolding_all decide
    rw [simulate_plant_operation, if_neg hne,
      show resolveFuelCost (some 10) none 1000 1 18 = Except.ok 10 from rfl]
    show some _ = _
    rw [show applyMaintenance 0 12 ((sortPrices (hourlySeries 1 50)).map (initRow 1000 1))
        = [{ timestamp := jan2024 0, price := 50, energy_mwh := 1000 }] from by
      with_unfolding_all decide]
    norm_num [moneyRow]
  refine ⟨?_, hA, hB⟩
  rw [hA, hB]
  simp

/-- C7 (amended): whenever the refueling cycle's energy is nonzero —
capacity, capacity factor and cycle length m all nonzero — supplying the
per-refueling cost m * 30 * 24 * capacity * capacity_factor * rate instead
of the direct per-MWh rate yields the same total profit; when that cycle
energy is zero the refueling variant instead raises `ZeroDivisionError`. -/
theorem claim_C7_amended (prices : List PriceRow) (c f r : ℚ) (m days interval : ℕ)
    (hne : prices ≠ []) (hc : c ≠ 0) (hf : f ≠ 0) (hm : m ≠ 0) :
    simProfit (simulate_plant_operation prices c none days f interval
        (some ((m : ℚ) * 30 * 24 * c * f * r)) m)
      = simProfit (simulate_plant_operation prices c (some r) days f interval none 18) := by
  have hguard : ¬ (prices.isEmpty = true) := by simpa using hne
  have hm2 : ((m : ℚ)) ≠ 0 := Nat.cast_ne_zero.mpr hm
  have hden : c * f * ((m : ℚ) * 30 * 24) ≠ 0 :=
    mul_ne_zero (mul_ne_zero hc hf)
      (mul_ne_zero (mul_ne_zero hm2 (by norm_num)) (by norm_num))
  have hr : resolveFuelCost none (some ((m : ℚ) * 30 * 24 * c * f * r)) c f m
      = Except.ok r := by
    show (if c * f * ((m : ℚ) * 30 * 24) = 0
        then (Except.error "float division by zero" : Except String ℚ)
        else Except.ok (((m : ℚ) * 30 * 24 * c * f * r) / (c * f * ((m : ℚ) * 30 * 24))))
      = Except.ok r
    rw [if_neg hden]
    congr 1
    rw [div_eq_iff hden]
    ring
  rw [simulate_plant_operation, simulate_plant_operation, if_neg hguard, if_neg hguard, hr]
  rfl

theorem claim_C7_amended_witness :
    simProfit (simulate_plant_operation (hourlySeries 1 50) 1000 none 1 1 12
        (some (((18 : ℕ) : ℚ) * 30 * 24 * 1000 * 1 * 10)) 18)
      = simProfit
          (simulate_plant_operation (hourlySeries 1 50) 1000 (some 10) 1 1 12 none 18) :=
  claim_C7_amended (hourlySeries 1 50) 1000 1 10 18 1 12
    (by with_unfolding_all decide) (by norm_num) (by norm_num) (by omega)

end NucModel
